import Mathlib

/-!
Verification of the DICOM viewer's slicing, coordinate-mapping, windowing and
annotation engine (`src/viewmodels/main_view_model.py`, with the model classes
in `src/models/`).

Modelling conventions:
* numpy arrays are shallow-embedded as a shape together with a total data
  function; the data function is only meaningful on in-range indices.
* Python `int`s are `ℤ`, Python `float`s are embedded as exact rationals `ℚ`
  (every concrete input exercised below is exactly representable in float64,
  so the rational model agrees with the float computation there).
* `int(f)` on a float (and `np.ndarray.astype` to an integer type) truncates
  toward zero; this is `pyInt` below.
* numpy fancy indexing `a[i]` with an integer `i`: in-range indices are used
  directly, negative indices in `[-n, -1]` wrap around, anything else raises
  `IndexError`.  This is `npIndex` below; an operation that can raise is
  embedded with an `Option` result, `none` standing for the raised error.
-/

namespace DicomViewer

/-- Orientations of the three MPR views ("axial" | "coronal" | "sagittal" in
the source; any other string falls into the `sagittal` branch of the
source's `if`/`else` chains, so three constructors are exhaustive). -/
inductive Orient
  | axial
  | coronal
  | sagittal
deriving DecidableEq

/-- A 2D numpy array: shape `(rows, cols)` plus the entries; the data
function is meaningful on `[0, rows) × [0, cols)`. -/
structure Arr2 where
  rows : ℕ
  cols : ℕ
  data : ℕ → ℕ → ℤ

/-- A 3D numpy array of shape `(d, h, w)` (axes `(Z, Y, X)` as in
`DicomVolume.array` and `AppState.raw_image` / `AppState.mask_image`). -/
structure Arr3 where
  d : ℕ
  h : ℕ
  w : ℕ
  data : ℕ → ℕ → ℕ → ℤ

/-- `np.flipud(m)`: reverse the rows, `flipud(m)[i, j] = m[rows-1-i, j]`. -/
def flipud (A : Arr2) : Arr2 :=
  ⟨A.rows, A.cols, fun i j => A.data (A.rows - 1 - i) j⟩

/-- `np.fliplr(m)`: reverse the columns, `fliplr(m)[i, j] = m[i, cols-1-j]`. -/
def fliplr (A : Arr2) : Arr2 :=
  ⟨A.rows, A.cols, fun i j => A.data i (A.cols - 1 - j)⟩

/-- `np.rot90(m, k=1)`: one counter-clockwise quarter turn,
`rot90(m)[i, j] = m[j, cols-1-i]`, shape `(cols, rows)`. -/
def rot90 (A : Arr2) : Arr2 :=
  ⟨A.cols, A.rows, fun i j => A.data j (A.cols - 1 - i)⟩

/-- `np.rot90(m, k=3)`: three counter-clockwise quarter turns. -/
def rot90k3 (A : Arr2) : Arr2 :=
  rot90 (rot90 (rot90 A))

/-- Slice extraction of `MainViewModel.get_slice_display_image`
(`main_view_model.py` lines 233-244): `axial` takes `arr[i, :, :]`
unchanged; `coronal` takes `arr[:, i, :]` and applies `np.flipud`;
`sagittal` takes `arr[:, :, i]` then `np.rot90(_, 1)`, `np.fliplr`,
`np.rot90(_, 3)`.  The index is assumed pre-clamped by the caller, as the
source does not clamp here. -/
def getSliceArr (arr : Arr3) (ori : Orient) (sliceIndex : ℕ) : Arr2 :=
  match ori with
  | .axial => ⟨arr.h, arr.w, fun r c => arr.data sliceIndex r c⟩
  | .coronal => flipud ⟨arr.d, arr.w, fun z x => arr.data z sliceIndex x⟩
  | .sagittal =>
      rot90k3 (fliplr (rot90 ⟨arr.d, arr.h, fun z y => arr.data z y sliceIndex⟩))

/-- Native `(height, width)` of the slice produced by `getSliceArr` for a
volume of shape `(d, h, w)`; see `getSliceArr_shape` below. -/
def sliceShapeHW (d h w : ℕ) : Orient → ℕ × ℕ
  | .axial => (h, w)
  | .coronal => (d, w)
  | .sagittal => (d, h)

/-- `np.clip(v, lo, hi)` on integers: `min(max(v, lo), hi)`. -/
def clip (v lo hi : ℤ) : ℤ := min (max v lo) hi

/-- `np.clip` on floats, embedded on `ℚ`. -/
def clipQ (v lo hi : ℚ) : ℚ := min (max v lo) hi

/-- Python `int(f)` on a float: truncation toward zero. -/
def pyInt (q : ℚ) : ℤ := if 0 ≤ q then ⌊q⌋ else -⌊-q⌋

/-- numpy integer-index resolution against an axis of length `n`: in-range
indices unchanged, negative indices in `[-n, -1]` wrap, anything else raises
(`none`). -/
def npIndex (i : ℤ) (n : ℕ) : Option ℕ :=
  if 0 ≤ i ∧ i < (n : ℤ) then some i.toNat
  else if -(n : ℤ) ≤ i ∧ i < 0 then some (i + n).toNat
  else none

/-- `MainViewModel.screen_to_voxel` (`main_view_model.py` lines 324-365) for
a loaded volume of shape `(vd, vh, vw)`.  Scales the mouse position from the
display size to the native slice size (float multiply/divide then `int`
truncation), inverts the orientation transform, and clamps every component.
The source's early `return None` when no volume is loaded is not modelled:
the volume shape is a parameter.  The cursor read at line 341 is dead in
every branch (all three components are reassigned), so it is omitted. -/
def screen_to_voxel (vd vh vw : ℕ) (ori : Orient) (sliceIndex : ℤ)
    (localX localY : ℚ) (displayWidth displayHeight : ℤ)
    (imgShapeHW : ℤ × ℤ) : Option (ℤ × ℤ × ℤ) :=
  let hImg := imgShapeHW.1
  let wImg := imgShapeHW.2
  if hImg ≤ 0 ∨ wImg ≤ 0 ∨ displayWidth ≤ 0 ∨ displayHeight ≤ 0 then none
  else
    let imgX : ℤ := pyInt (localX * (wImg : ℚ) / (displayWidth : ℚ))
    let imgY : ℤ := pyInt (localY * (hImg : ℚ) / (displayHeight : ℚ))
    let raw : ℤ × ℤ × ℤ :=
      match ori with
      | .axial => (sliceIndex, imgY, imgX)
      | .coronal => ((vd : ℤ) - 1 - imgY, sliceIndex, imgX)
      | .sagittal => ((vd : ℤ) - 1 - imgY, imgX, sliceIndex)
    some (clip raw.1 0 ((vd : ℤ) - 1),
          clip raw.2.1 0 ((vh : ℤ) - 1),
          clip raw.2.2 0 ((vw : ℤ) - 1))

/-- Crosshair placement of `MainViewModel.get_slice_display_image`
(`main_view_model.py` lines 261-273): the display `(row, col)` of the cursor
`(z, y, x)`, or `none` when the guard leaves `row`/`col` unset. -/
def crosshair_row_col (vd vh vw : ℕ) (ori : Orient) (z y x : ℤ) :
    Option (ℤ × ℤ) :=
  match ori with
  | .axial =>
      if 0 ≤ y ∧ y < (vh : ℤ) ∧ 0 ≤ x ∧ x < (vw : ℤ) then some (y, x) else none
  | .coronal =>
      if 0 ≤ z ∧ z < (vd : ℤ) ∧ 0 ≤ x ∧ x < (vw : ℤ) then
        some ((vd : ℤ) - 1 - z, x)
      else none
  | .sagittal =>
      if 0 ≤ z ∧ z < (vd : ℤ) ∧ 0 ≤ y ∧ y < (vh : ℤ) then
        some ((vd : ℤ) - 1 - z, y)
      else none

/-- The windowing of `MainViewModel.get_slice_display_image`
(`main_view_model.py` lines 246-250), elementwise on one intensity `v`:
`low = wl - ww/2`, `high = wl + ww/2`, clip to `[low, high]`, normalize by
`(v - low) / (high - low + 1e-5)`, scale by 255 and truncate
(`astype(np.uint8)`; the bounds lemma below shows the value is already in
`[0, 255]`, so the uint8 conversion never wraps). -/
def windowApply (ww wl v : ℤ) : ℤ :=
  let low : ℚ := (wl : ℚ) - (ww : ℚ) / 2
  let high : ℚ := (wl : ℚ) + (ww : ℚ) / 2
  let clipped : ℚ := clipQ (v : ℚ) low high
  let norm : ℚ := (clipped - low) / (high - low + 1 / 100000)
  pyInt (norm * 255)

/-- `windowApply` applied elementwise to a whole slice, as the source does
with numpy array operations. -/
def windowApplyArr (A : Arr2) (ww wl : ℤ) : Arr2 :=
  ⟨A.rows, A.cols, fun i j => windowApply ww wl (A.data i j)⟩

/-- `AppState` (`src/models/app_state.py`), with its field defaults.
`raw_image` doubles as the presence of a loaded volume: the source keeps
`MainViewModel._volume` and `AppState.raw_image` pointing at the same array
and sets them together. -/
structure AppState where
  raw_image : Option Arr3 := none
  mask_image : Option Arr3 := none
  spacing : Option (ℚ × ℚ × ℚ) := none
  origin : Option (ℚ × ℚ × ℚ) := none
  current_cursor : ℤ × ℤ × ℤ := (0, 0, 0)
  window_level : ℤ := -600
  window_width : ℤ := 1500

/-- `MainViewModel.set_cursor` (`main_view_model.py` lines 123-132): no-op
without a volume, otherwise clamp each component to the volume bounds. -/
def set_cursor (st : AppState) (z y x : ℤ) : AppState :=
  match st.raw_image with
  | none => st
  | some vol =>
      { st with current_cursor :=
          (clip z 0 ((vol.d : ℤ) - 1),
           clip y 0 ((vol.h : ℤ) - 1),
           clip x 0 ((vol.w : ℤ) - 1)) }

/-- `MainViewModel.set_window` (`main_view_model.py` lines 134-138): stores
both fields as given; no clamping happens here. -/
def set_window (st : AppState) (windowWidth windowLevel : ℤ) : AppState :=
  { st with window_width := windowWidth, window_level := windowLevel }

/-- The right-drag window gesture of `SliceView.mouseMoveEvent`
(`src/views/slice_view.py` lines 195-205): the caller clamps with `np.clip`
before invoking `set_window`.  `dx`, `dy` are the float mouse deltas. -/
def mouse_drag_window (st : AppState) (dx dy : ℚ) : AppState :=
  set_window st
    (pyInt (clipQ ((st.window_width : ℚ) + dx * 4) 200 3000))
    (pyInt (clipQ ((st.window_level : ℚ) - dy * 4) (-1000) 1000))

/-- The data a successful `sitk` reader run hands to
`load_dicom_directory`: the `(Z, Y, X)` array, spacing and origin. -/
structure LoadedImage where
  array : Arr3
  spacing : ℚ × ℚ × ℚ
  origin : ℚ × ℚ × ℚ

/-- `MainViewModel.load_dicom_directory` (`main_view_model.py` lines 64-98).
The reader `try` block (series discovery, metadata read, `Execute`) is a
black box whose outcome is the `Except` argument: `.error e` covers both
"no DICOM series found" and any reader exception.  Returns the source's
`bool` result, the new state, plus the emitted status messages (the source's
Chinese f-strings are abstracted to fixed English text). -/
def load_dicom_directory (st : AppState) (reader : Except String LoadedImage) :
    Bool × AppState × List String :=
  match reader with
  | .error e => (false, st, ["load failed: " ++ e])
  | .ok img =>
      let d := img.array.d
      let h := img.array.h
      let w := img.array.w
      (true,
       { st with
          raw_image := some img.array,
          spacing := some img.spacing,
          origin := some img.origin,
          current_cursor := ((d / 2 : ℕ), ((h / 2 : ℕ) : ℤ), ((w / 2 : ℕ) : ℤ)),
          mask_image := some ⟨d, h, w, fun _ _ _ => 0⟩ },
       ["loaded DICOM series"])

/-- One `mask[a, b, c] = v` assignment on a mask's data function. -/
def updateMask (m : ℕ → ℕ → ℕ → ℤ) (p : ℕ × ℕ × ℕ) (v : ℤ) :
    ℕ → ℕ → ℕ → ℤ :=
  fun a b c => if (a, b, c) = p then v else m a b c

/-- The offset list `range(-r, r+1)` iterated by each brush loop. -/
def offsets (r : ℕ) : List ℤ :=
  (List.range (2 * r + 1)).map fun (n : ℕ) => (n : ℤ) - (r : ℤ)

/-- The write targets of the `MainViewModel.draw_on_mask` double loop
(`main_view_model.py` lines 188-208), in loop order, for a mask of shape
`(d, h, w)` and the center voxel `(z, y, x)` returned by `screen_to_voxel`.
Each entry corresponds to one executed `mask[...] = label` statement; the
inner `Option` is the resolution of that write's fixed-axis index, `none`
marking an index that raises `IndexError`.  The two in-plane indices are
guarded against the mask shape by the loop itself; the fixed-axis index is
`z` (already clamped by `screen_to_voxel`) for axial, but the raw
`slice_index` argument for coronal and sagittal. -/
def drawTargets (d h w : ℕ) (r : ℕ) (ori : Orient) (sliceIndex : ℤ)
    (z y x : ℤ) : List (Option (ℕ × ℕ × ℕ)) :=
  match ori with
  | .axial =>
      (offsets r).flatMap fun dy =>
        (offsets r).filterMap fun dx =>
          if dy * dy + dx * dx ≤ (r : ℤ) * (r : ℤ) then
            if 0 ≤ y + dy ∧ y + dy < (h : ℤ) ∧ 0 ≤ x + dx ∧ x + dx < (w : ℤ)
            then
              some ((npIndex z d).map fun zn =>
                (zn, (y + dy).toNat, (x + dx).toNat))
            else none
          else none
  | .coronal =>
      (offsets r).flatMap fun dz =>
        (offsets r).filterMap fun dx =>
          if dz * dz + dx * dx ≤ (r : ℤ) * (r : ℤ) then
            if 0 ≤ z + dz ∧ z + dz < (d : ℤ) ∧ 0 ≤ x + dx ∧ x + dx < (w : ℤ)
            then
              some ((npIndex sliceIndex h).map fun yn =>
                ((z + dz).toNat, yn, (x + dx).toNat))
            else none
          else none
  | .sagittal =>
      (offsets r).flatMap fun dz =>
        (offsets r).filterMap fun dy =>
          if dz * dz + dy * dy ≤ (r : ℤ) * (r : ℤ) then
            if 0 ≤ z + dz ∧ z + dz < (d : ℤ) ∧ 0 ≤ y + dy ∧ y + dy < (h : ℤ)
            then
              some ((npIndex sliceIndex w).map fun xn =>
                ((z + dz).toNat, (y + dy).toNat, xn))
            else none
          else none

/-- Stamp `label = 1` at every target, in loop order. -/
def stampAll (m : ℕ → ℕ → ℕ → ℤ) (l : List (ℕ × ℕ × ℕ)) :
    ℕ → ℕ → ℕ → ℤ :=
  l.foldl (fun acc p => updateMask acc p 1) m

/-- Execute the write list: when every fixed-axis index resolves, the
stamped mask; otherwise `none`, standing for the `IndexError` the loop
raises (the in-place writes made before the raise are not observable
through the method's interface, so the raised case collapses to `none`). -/
def runWrites (mask : Arr3) (l : List (Option (ℕ × ℕ × ℕ))) : Option Arr3 :=
  if l.all Option.isSome then
    some ⟨mask.d, mask.h, mask.w, stampAll mask.data l.reduceOption⟩
  else none

/-- `MainViewModel.draw_on_mask` (`main_view_model.py` lines 163-209) for a
loaded volume of shape `(vd, vh, vw)` and the state's mask.  Converts the
mouse position to a voxel with `screen_to_voxel`; an unmapped position is
the source's early `return` (mask unchanged, no error).  `r` is the brush
radius `self._brush_radius`. -/
def draw_on_mask (vd vh vw : ℕ) (mask : Arr3) (r : ℕ) (ori : Orient)
    (sliceIndex : ℤ) (localX localY : ℚ) (displayWidth displayHeight : ℤ)
    (imgShapeHW : ℤ × ℤ) : Option Arr3 :=
  match screen_to_voxel vd vh vw ori sliceIndex localX localY
      displayWidth displayHeight imgShapeHW with
  | none => some mask
  | some (z, y, x) =>
      runWrites mask (drawTargets mask.d mask.h mask.w r ori sliceIndex z y x)

/-- Spec-side description of the painted set, following the claim's words:
the fixed axis pinned to `slice_index`, and in the orthogonal plane the
in-bounds voxels whose in-plane offset `(dy, dx)` from the center satisfies
`dy^2 + dx^2 <= r^2`.  Compared against `draw_on_mask` in `c3_disc_painting`. -/
def specDiscCond (ori : Orient) (sliceIndex z y x : ℤ) (r : ℕ)
    (d h w : ℕ) (a b c : ℕ) : Prop :=
  match ori with
  | .axial =>
      a = sliceIndex.toNat ∧ b < h ∧ c < w ∧
        ((b : ℤ) - y) * ((b : ℤ) - y) + ((c : ℤ) - x) * ((c : ℤ) - x) ≤
          (r : ℤ) * (r : ℤ)
  | .coronal =>
      b = sliceIndex.toNat ∧ a < d ∧ c < w ∧
        ((a : ℤ) - z) * ((a : ℤ) - z) + ((c : ℤ) - x) * ((c : ℤ) - x) ≤
          (r : ℤ) * (r : ℤ)
  | .sagittal =>
      c = sliceIndex.toNat ∧ a < d ∧ b < h ∧
        ((a : ℤ) - z) * ((a : ℤ) - z) + ((b : ℤ) - y) * ((b : ℤ) - y) ≤
          (r : ℤ) * (r : ℤ)

instance (ori : Orient) (sliceIndex z y x : ℤ) (r : ℕ) (d h w : ℕ)
    (a b c : ℕ) :
    Decidable (specDiscCond ori sliceIndex z y x r d h w a b c) :=
  match ori with
  | .axial => inferInstanceAs (Decidable (_ ∧ _ ∧ _ ∧ _))
  | .coronal => inferInstanceAs (Decidable (_ ∧ _ ∧ _ ∧ _))
  | .sagittal => inferInstanceAs (Decidable (_ ∧ _ ∧ _ ∧ _))

/-! ### Basic lemmas about the embedded operations -/

lemma getSliceArr_shape (arr : Arr3) (ori : Orient) (i : ℕ) :
    ((getSliceArr arr ori i).rows, (getSliceArr arr ori i).cols) =
      sliceShapeHW arr.d arr.h arr.w ori := by
  cases ori <;> rfl

lemma pyInt_intCast (n : ℤ) : pyInt (n : ℚ) = n := by
  unfold pyInt
  split_ifs with h
  · exact Int.floor_intCast n
  · rw [show (-(n : ℚ)) = ((-n : ℤ) : ℚ) by push_cast; ring, Int.floor_intCast]
    ring

lemma pyInt_scale_cancel (a n : ℤ) (hn : n ≠ 0) :
    pyInt ((a : ℚ) * (n : ℚ) / (n : ℚ)) = a := by
  rw [mul_div_cancel_right₀ _ (by exact_mod_cast hn)]
  exact pyInt_intCast a

lemma clip_eq_self {v lo hi : ℤ} (h1 : lo ≤ v) (h2 : v ≤ hi) :
    clip v lo hi = v := by
  unfold clip
  rw [max_eq_left h1, min_eq_left h2]

/-! ### Claim C1: round-trip inverse of the coordinate mapping -/

/-- Claim C1: for every orientation, volume shape and valid voxel `(z, y, x)`,
mapping the cursor to its display `(row, col)` with the forward crosshair
transform of `get_slice_display_image` and feeding that position back through
`screen_to_voxel` — at the matching `slice_index` and with the display size
equal to the native slice size — reproduces `(z, y, x)` exactly. -/
theorem c1_round_trip (d h w z y x : ℕ) (ori : Orient)
    (hz : z < d) (hy : y < h) (hx : x < w) :
    (crosshair_row_col d h w ori (z : ℤ) (y : ℤ) (x : ℤ)).bind (fun rc =>
      screen_to_voxel d h w ori
        (match ori with
         | .axial => (z : ℤ) | .coronal => (y : ℤ) | .sagittal => (x : ℤ))
        (rc.2 : ℚ) (rc.1 : ℚ)
        ((sliceShapeHW d h w ori).2 : ℤ) ((sliceShapeHW d h w ori).1 : ℤ)
        (((sliceShapeHW d h w ori).1 : ℤ), ((sliceShapeHW d h w ori).2 : ℤ)))
      = some ((z : ℤ), (y : ℤ), (x : ℤ)) := by
  cases ori
  case axial =>
    have hcond : 0 ≤ (y : ℤ) ∧ (y : ℤ) < (h : ℤ) ∧ 0 ≤ (x : ℤ) ∧
        (x : ℤ) < (w : ℤ) := by omega
    simp only [crosshair_row_col, sliceShapeHW]
    rw [if_pos hcond, Option.some_bind]
    simp only [screen_to_voxel]
    rw [if_neg (by omega)]
    rw [pyInt_scale_cancel _ _ (by omega), pyInt_scale_cancel _ _ (by omega)]
    rw [clip_eq_self (by omega) (by omega), clip_eq_self (by omega) (by omega),
      clip_eq_self (by omega) (by omega)]
  case coronal =>
    have hcond : 0 ≤ (z : ℤ) ∧ (z : ℤ) < (d : ℤ) ∧ 0 ≤ (x : ℤ) ∧
        (x : ℤ) < (w : ℤ) := by omega
    simp only [crosshair_row_col, sliceShapeHW]
    rw [if_pos hcond, Option.some_bind]
    simp only [screen_to_voxel]
    rw [if_neg (by omega)]
    rw [pyInt_scale_cancel _ _ (by omega), pyInt_scale_cancel _ _ (by omega)]
    rw [show (d : ℤ) - 1 - ((d : ℤ) - 1 - (z : ℤ)) = (z : ℤ) by omega]
    rw [clip_eq_self (by omega) (by omega), clip_eq_self (by omega) (by omega),
      clip_eq_self (by omega) (by omega)]
  case sagittal =>
    have hcond : 0 ≤ (z : ℤ) ∧ (z : ℤ) < (d : ℤ) ∧ 0 ≤ (y : ℤ) ∧
        (y : ℤ) < (h : ℤ) := by omega
    simp only [crosshair_row_col, sliceShapeHW]
    rw [if_pos hcond, Option.some_bind]
    simp only [screen_to_voxel]
    rw [if_neg (by omega)]
    rw [pyInt_scale_cancel _ _ (by omega), pyInt_scale_cancel _ _ (by omega)]
    rw [show (d : ℤ) - 1 - ((d : ℤ) - 1 - (z : ℤ)) = (z : ℤ) by omega]
    rw [clip_eq_self (by omega) (by omega), clip_eq_self (by omega) (by omega),
      clip_eq_self (by omega) (by omega)]

/-- Witness for `c1_round_trip`: a concrete round trip on a `(3, 4, 5)`
volume at voxel `(1, 2, 3)` in the coronal view. -/
theorem c1_round_trip_witness :
    (crosshair_row_col 3 4 5 .coronal 1 2 3).bind (fun rc =>
      screen_to_voxel 3 4 5 .coronal 2 (rc.2 : ℚ) (rc.1 : ℚ) 5 3 (3, 5))
      = some (1, 2, 3) :=
  c1_round_trip 3 4 5 1 2 3 .coronal (by decide) (by decide) (by decide)

/-! ### Claim C2: orientation extraction of a single bright voxel -/

/-- Claim C2: in a volume whose unique brightest voxel sits at
`(z, y, x) = (10, 20, 30)`, the axial slice at index 10 has its bright pixel
at `(row, col) = (20, 30)`; the coronal slice at index 20 has it at
`(d - 1 - 10, 30)`; the sagittal slice at index 30 has it at
`(d - 1 - 10, 20)`.  "Has its bright pixel at p" is stated as: the slice
value at `p` equals the bright intensity, and every other in-range pixel is
strictly darker. -/
theorem c2_bright_voxel (arr : Arr3)
    (hd : 10 < arr.d) (hh : 20 < arr.h) (hw : 30 < arr.w)
    (hbright : ∀ z y x : ℕ, z < arr.d → y < arr.h → x < arr.w →
      (z, y, x) ≠ (10, 20, 30) → arr.data z y x < arr.data 10 20 30) :
    ((getSliceArr arr .axial 10).data 20 30 = arr.data 10 20 30 ∧
      ∀ r c : ℕ, r < arr.h → c < arr.w → (r, c) ≠ (20, 30) →
        (getSliceArr arr .axial 10).data r c < arr.data 10 20 30) ∧
    ((getSliceArr arr .coronal 20).data (arr.d - 1 - 10) 30 =
        arr.data 10 20 30 ∧
      ∀ r c : ℕ, r < arr.d → c < arr.w → (r, c) ≠ (arr.d - 1 - 10, 30) →
        (getSliceArr arr .coronal 20).data r c < arr.data 10 20 30) ∧
    ((getSliceArr arr .sagittal 30).data (arr.d - 1 - 10) 20 =
        arr.data 10 20 30 ∧
      ∀ r c : ℕ, r < arr.d → c < arr.h → (r, c) ≠ (arr.d - 1 - 10, 20) →
        (getSliceArr arr .sagittal 30).data r c < arr.data 10 20 30) := by
  refine ⟨⟨rfl, ?_⟩, ⟨?_, ?_⟩, ?_, ?_⟩
  · intro r c hr hc hne
    exact hbright 10 r c (by omega) hr hc (by
      intro hEq
      apply hne
      obtain ⟨-, h2, h3⟩ := Prod.mk.injEq .. ▸ hEq
      simp_all)
  · show arr.data (arr.d - 1 - (arr.d - 1 - 10)) 20 30 = arr.data 10 20 30
    rw [show arr.d - 1 - (arr.d - 1 - 10) = 10 by omega]
  · intro r c hr hc hne
    show arr.data (arr.d - 1 - r) 20 c < arr.data 10 20 30
    refine hbright _ 20 c (by omega) (by omega) hc ?_
    intro hEq
    apply hne
    have h1 : arr.d - 1 - r = 10 := congrArg Prod.fst hEq
    have h3 : c = 30 := congrArg (fun t => t.2.2) hEq
    have : r = arr.d - 1 - 10 := by omega
    simp_all
  · show arr.data
        (arr.d - 1 - (arr.d - 1 - (arr.d - 1 - (arr.d - 1 - 10))))
        (arr.h - 1 - (arr.h - 1 - 20)) 30 = arr.data 10 20 30
    rw [show arr.d - 1 - (arr.d - 1 - (arr.d - 1 - (arr.d - 1 - 10))) = 10
        by omega,
      show arr.h - 1 - (arr.h - 1 - 20) = 20 by omega]
  · intro r c hr hc hne
    show arr.data (arr.d - 1 - (arr.d - 1 - (arr.d - 1 - r)))
        (arr.h - 1 - (arr.h - 1 - c)) 30 < arr.data 10 20 30
    rw [show arr.d - 1 - (arr.d - 1 - (arr.d - 1 - r)) = arr.d - 1 - r
        by omega,
      show arr.h - 1 - (arr.h - 1 - c) = c by omega]
    refine hbright _ c 30 (by omega) hc (by omega) ?_
    intro hEq
    apply hne
    have h1 : arr.d - 1 - r = 10 := congrArg Prod.fst hEq
    have h2 : c = 20 := congrArg (fun t => t.2.1) hEq
    have : r = arr.d - 1 - 10 := by omega
    simp_all

/-- A concrete volume with its unique bright voxel at `(10, 20, 30)`. -/
def brightArr : Arr3 :=
  ⟨12, 21, 31, fun z y x => if z = 10 ∧ y = 20 ∧ x = 30 then 100 else 0⟩

/-- Witness for `c2_bright_voxel` on `brightArr` (depth 12, so the flipped
row index is `12 - 1 - 10 = 1`). -/
theorem c2_bright_voxel_witness :
    (getSliceArr brightArr .axial 10).data 20 30 = brightArr.data 10 20 30 ∧
    (getSliceArr brightArr .coronal 20).data 1 30 = brightArr.data 10 20 30 ∧
    (getSliceArr brightArr .sagittal 30).data 1 20 = brightArr.data 10 20 30 := by
  have hbright : ∀ z y x : ℕ, z < brightArr.d → y < brightArr.h →
      x < brightArr.w → (z, y, x) ≠ (10, 20, 30) →
      brightArr.data z y x < brightArr.data 10 20 30 := by
    intro z y x _ _ _ hne
    show (if z = 10 ∧ y = 20 ∧ x = 30 then (100 : ℤ) else 0) <
      (if (10 : ℕ) = 10 ∧ (20 : ℕ) = 20 ∧ (30 : ℕ) = 30 then (100 : ℤ) else 0)
    rw [if_neg (by
        rintro ⟨rfl, rfl, rfl⟩
        exact hne rfl),
      if_pos ⟨rfl, rfl, rfl⟩]
    norm_num
  have h := c2_bright_voxel brightArr (by decide) (by decide) (by decide) hbright
  exact ⟨h.1.1, h.2.1.1, h.2.2.1⟩

/-! ### Claim C5: window-setting clamping -/

lemma pyInt_bounds {q : ℚ} {lo hi : ℤ} (h1 : (lo : ℚ) ≤ q)
    (h2 : q ≤ (hi : ℚ)) : lo ≤ pyInt q ∧ pyInt q ≤ hi := by
  unfold pyInt
  split_ifs with h0
  · refine ⟨Int.le_floor.2 h1, ?_⟩
    calc ⌊q⌋ ≤ ⌊(hi : ℚ)⌋ := Int.floor_le_floor h2
      _ = hi := Int.floor_intCast hi
  · rw [Int.floor_neg, neg_neg]
    refine ⟨?_, Int.ceil_le.2 h2⟩
    calc lo = ⌈((lo : ℚ))⌉ := (Int.ceil_intCast lo).symm
      _ ≤ ⌈q⌉ := Int.ceil_le_ceil h1

/-- Counterexample to claim C5: `set_window` stores its arguments verbatim,
so `set_window(5000, 2000)` leaves the stored width at 5000, outside
`[200, 3000]`, and the stored level at 2000, outside `[-1000, 1000]`. -/
theorem c5_counterexample :
    (set_window {} 5000 2000).window_width = 5000 ∧
      ¬ (set_window {} 5000 2000).window_width ≤ 3000 ∧
      ¬ (set_window {} 5000 2000).window_level ≤ 1000 :=
  ⟨rfl, by decide, by decide⟩

/-- Claim C5 amended: `set_window` itself stores both fields unchanged and
performs no clamping; the clamping to `[200, 3000]` and `[-1000, 1000]` is
done independently per field by the right-drag caller
(`SliceView.mouseMoveEvent`) before it calls `set_window`, so every window
setting that enters through the drag gesture lies in those ranges. -/
theorem c5_window_clamping (st : AppState) (ww wl : ℤ) (dx dy : ℚ) :
    ((set_window st ww wl).window_width = ww ∧
      (set_window st ww wl).window_level = wl) ∧
    (200 ≤ (mouse_drag_window st dx dy).window_width ∧
      (mouse_drag_window st dx dy).window_width ≤ 3000 ∧
      -1000 ≤ (mouse_drag_window st dx dy).window_level ∧
      (mouse_drag_window st dx dy).window_level ≤ 1000) := by
  have hw : (200 : ℤ) ≤ pyInt (clipQ ((st.window_width : ℚ) + dx * 4) 200 3000)
      ∧ pyInt (clipQ ((st.window_width : ℚ) + dx * 4) 200 3000) ≤ 3000 := by
    refine pyInt_bounds ?_ ?_
    · exact le_min (le_max_right _ _) (by norm_num)
    · exact min_le_right _ _
  have hl : (-1000 : ℤ) ≤
      pyInt (clipQ ((st.window_level : ℚ) - dy * 4) (-1000) 1000) ∧
      pyInt (clipQ ((st.window_level : ℚ) - dy * 4) (-1000) 1000) ≤ 1000 := by
    refine pyInt_bounds ?_ ?_
    · exact_mod_cast le_min (le_max_right _ _) (by norm_num)
    · exact_mod_cast min_le_right _ _
  exact ⟨⟨rfl, rfl⟩, hw.1, hw.2, hl.1, hl.2⟩

/-! ### Claim C6: windowing bounds and purity -/

lemma windowApply_bounds (ww wl v : ℤ) :
    0 ≤ windowApply ww wl v ∧ windowApply ww wl v ≤ 255 := by
  have hrepr : windowApply ww wl v = pyInt
      ((min (max ((v : ℚ)) ((wl : ℚ) - (ww : ℚ) / 2)) ((wl : ℚ) + (ww : ℚ) / 2)
          - ((wl : ℚ) - (ww : ℚ) / 2)) /
        (((wl : ℚ) + (ww : ℚ) / 2) - ((wl : ℚ) - (ww : ℚ) / 2) + 1 / 100000)
        * 255) := rfl
  rw [hrepr]
  set low : ℚ := (wl : ℚ) - (ww : ℚ) / 2 with hlow
  set high : ℚ := (wl : ℚ) + (ww : ℚ) / 2 with hhigh
  have hdiff : high - low = (ww : ℚ) := by rw [hlow, hhigh]; ring
  set cl : ℚ := min (max ((v : ℚ)) low) high with hcl
  set q : ℚ := (cl - low) / (high - low + 1 / 100000) * 255 with hq
  have hc2 : cl ≤ high := by rw [hcl]; exact min_le_right _ _
  clear_value low high cl q
  have key : 0 ≤ q ∧ q < 256 := by
    rcases le_or_lt 0 (ww : ℚ) with hpos | hneg
    · have hd : 0 < high - low + 1 / 100000 := by rw [hdiff]; linarith
      have hlh : low ≤ high := by linarith
      have hc1 : low ≤ cl := by
        rw [hcl]
        exact le_min (le_max_right _ _) hlh
      have hnum : cl - low ≤ (ww : ℚ) := by linarith
      constructor
      · rw [hq]
        apply mul_nonneg (div_nonneg (by linarith) (le_of_lt hd)) (by norm_num)
      · rw [hq, div_mul_eq_mul_div, div_lt_iff₀ hd, hdiff]
        linarith
    · have hint : ww < 0 := by exact_mod_cast hneg
      have hww : (ww : ℚ) ≤ -1 := by
        have h1 : ww ≤ -1 := by omega
        exact_mod_cast h1
      have hlh : high < low := by linarith
      have hcl_eq : cl = high := by
        rw [hcl]
        exact min_eq_right (le_of_lt (lt_of_lt_of_le hlh (le_max_right _ _)))
      have hd : high - low + 1 / 100000 < 0 := by rw [hdiff]; linarith
      constructor
      · rw [hq]
        apply mul_nonneg
          (div_nonneg_of_nonpos (by rw [hcl_eq]; linarith) (le_of_lt hd))
          (by norm_num)
      · rw [hq, div_mul_eq_mul_div, div_lt_iff_of_neg hd, hcl_eq, hdiff]
        linarith
  have hfloor : pyInt q = ⌊q⌋ := if_pos key.1
  rw [hfloor]
  refine ⟨Int.floor_nonneg.2 key.1, ?_⟩
  have h256 : ⌊q⌋ < 256 := Int.floor_lt.2 (by exact_mod_cast key.2)
  omega

/-- Claim C6: every pixel the window mapping produces lies in `[0, 255]`
(the `eps` term keeps it total even for degenerate window widths), and the
mapping is a pure deterministic function of the slice and `(width, level)`,
so applying it twice with the same parameters to the same input yields
identical output. -/
theorem c6_windowing (A : Arr2) (ww wl : ℤ) (i j : ℕ) :
    (0 ≤ (windowApplyArr A ww wl).data i j ∧
      (windowApplyArr A ww wl).data i j ≤ 255) ∧
    windowApplyArr A ww wl = windowApplyArr A ww wl :=
  ⟨windowApply_bounds ww wl (A.data i j), rfl⟩

/-! ### Claim C8: load-failure atomicity -/

/-- Claim C8: whatever the prior session state, a failing
`load_dicom_directory` (no DICOM series found, or a reader exception —
both surface as the `.error` outcome of the reader block) emits a
user-visible message and returns `False` with the state returned exactly
as it was: volume, raw_image, mask_image, spacing, origin, cursor and
window setting are untouched, so the prior volume stays active and the
call is safe to retry. -/
theorem c8_load_failure_atomic (st : AppState) (e : String) :
    load_dicom_directory st (.error e) = (false, st, ["load failed: " ++ e]) :=
  rfl

/-! ### Claim C9: state after a successful load -/

/-- A minimal concrete reader result used by counterexample and witnesses. -/
def imgSmall : LoadedImage :=
  ⟨⟨1, 1, 1, fun _ _ _ => 0⟩, (1, 1, 1), (0, 0, 0)⟩

/-- Counterexample to claim C9: loading does not touch the window fields,
so a volume loaded after `set_window(300, 0)` is a "newly loaded volume"
whose session window width is 300, not 1500. -/
theorem c9_counterexample :
    (load_dicom_directory (set_window {} 300 0) (.ok imgSmall)).2.1.window_width
        = 300 ∧
      (300 : ℤ) ≠ 1500 :=
  ⟨rfl, by decide⟩

/-- A reader result of shape `(100, 512, 512)` for the load-and-center
scenario. -/
def img100 : LoadedImage :=
  ⟨⟨100, 512, 512, fun _ _ _ => 0⟩, (1, 1, 1), (0, 0, 0)⟩

/-- Claim C9 amended: the window defaults `window_width = 1500` and
`window_level = -600` are the `AppState` field initialisers (matching the
default slider positions), and `load_dicom_directory` leaves the window
setting unchanged — so the first volume loaded into a fresh session shows
1500 / -600.  Loading a volume of shape `(100, 512, 512)` sets the cursor
to `(50, 256, 256)` exactly. -/
theorem c9_window_defaults (st : AppState) (img : LoadedImage)
    (hd : img.array.d = 100) (hh : img.array.h = 512)
    (hw : img.array.w = 512) :
    (({} : AppState).window_width = 1500 ∧ ({} : AppState).window_level = -600)
    ∧ ((load_dicom_directory st (.ok img)).2.1.window_width = st.window_width
      ∧ (load_dicom_directory st (.ok img)).2.1.window_level = st.window_level)
    ∧ (load_dicom_directory st (.ok img)).2.1.current_cursor = (50, 256, 256)
    := by
  refine ⟨⟨rfl, rfl⟩, ⟨rfl, rfl⟩, ?_⟩
  show (((img.array.d / 2 : ℕ) : ℤ), ((img.array.h / 2 : ℕ) : ℤ),
      ((img.array.w / 2 : ℕ) : ℤ)) = ((50 : ℤ), (256 : ℤ), (256 : ℤ))
  rw [hd, hh, hw]
  rfl

/-- Witness for `c9_window_defaults` at the concrete `img100` in a fresh
session. -/
theorem c9_window_defaults_witness :
    (load_dicom_directory {} (.ok img100)).2.1.current_cursor =
      (50, 256, 256) :=
  (c9_window_defaults {} img100 rfl rfl rfl).2.2

/-! ### Lemmas about the brush write loop -/

lemma mem_offsets {r : ℕ} {a : ℤ} :
    a ∈ offsets r ↔ -(r : ℤ) ≤ a ∧ a ≤ (r : ℤ) := by
  unfold offsets
  simp only [List.mem_map, List.mem_range]
  constructor
  · rintro ⟨n, hn, rfl⟩
    omega
  · intro hab
    exact ⟨(a + r).toNat, by omega, by omega⟩

lemma sq_le_bounds {a b : ℤ} (hb : 0 ≤ b) (h : a * a ≤ b * b) :
    -b ≤ a ∧ a ≤ b := by
  constructor <;> nlinarith

lemma npIndex_inRange {i : ℤ} {n : ℕ} (h0 : 0 ≤ i) (h1 : i < (n : ℤ)) :
    npIndex i n = some i.toNat := if_pos ⟨h0, h1⟩

lemma stampAll_apply (l : List (ℕ × ℕ × ℕ)) (m : ℕ → ℕ → ℕ → ℤ)
    (a b c : ℕ) :
    stampAll m l a b c = if (a, b, c) ∈ l then 1 else m a b c := by
  induction l generalizing m with
  | nil => simp [stampAll]
  | cons p t ih =>
      show stampAll (updateMask m p 1) t a b c = _
      rw [ih]
      by_cases hmem : (a, b, c) ∈ t
      · simp [hmem]
      · by_cases hp : (a, b, c) = p
        · simp [updateMask, hp, hmem]
        · simp [updateMask, hp, hmem]

lemma runWrites_eq_of_all {mask : Arr3} {l : List (Option (ℕ × ℕ × ℕ))}
    (hall : ∀ t ∈ l, t.isSome = true) :
    runWrites mask l =
      some ⟨mask.d, mask.h, mask.w, stampAll mask.data l.reduceOption⟩ := by
  unfold runWrites
  rw [if_pos (List.all_eq_true.2 hall)]

lemma mem_drawTargets_axial {d h w r : ℕ} {si z y x : ℤ}
    {t : Option (ℕ × ℕ × ℕ)} :
    t ∈ drawTargets d h w r .axial si z y x ↔
      ∃ dy dx : ℤ, dy * dy + dx * dx ≤ (r : ℤ) * (r : ℤ) ∧
        0 ≤ y + dy ∧ y + dy < (h : ℤ) ∧ 0 ≤ x + dx ∧ x + dx < (w : ℤ) ∧
        t = (npIndex z d).map fun zn =>
          (zn, (y + dy).toNat, (x + dx).toNat) := by
  unfold drawTargets
  simp only [List.mem_flatMap, List.mem_filterMap, mem_offsets]
  constructor
  · rintro ⟨dy, hdy, dx, hdx, hf⟩
    split_ifs at hf with hdisc hbnd
    · exact ⟨dy, dx, hdisc, hbnd.1, hbnd.2.1, hbnd.2.2.1, hbnd.2.2.2,
        (Option.some.inj hf).symm⟩
  · rintro ⟨dy, dx, hdisc, h1, h2, h3, h4, rfl⟩
    have hdyb : -(r : ℤ) ≤ dy ∧ dy ≤ (r : ℤ) :=
      sq_le_bounds (by positivity) (by nlinarith)
    have hdxb : -(r : ℤ) ≤ dx ∧ dx ≤ (r : ℤ) :=
      sq_le_bounds (by positivity) (by nlinarith)
    refine ⟨dy, hdyb, dx, hdxb, ?_⟩
    rw [if_pos hdisc, if_pos ⟨h1, h2, h3, h4⟩]

lemma mem_drawTargets_coronal {d h w r : ℕ} {si z y x : ℤ}
    {t : Option (ℕ × ℕ × ℕ)} :
    t ∈ drawTargets d h w r .coronal si z y x ↔
      ∃ dz dx : ℤ, dz * dz + dx * dx ≤ (r : ℤ) * (r : ℤ) ∧
        0 ≤ z + dz ∧ z + dz < (d : ℤ) ∧ 0 ≤ x + dx ∧ x + dx < (w : ℤ) ∧
        t = (npIndex si h).map fun yn =>
          ((z + dz).toNat, yn, (x + dx).toNat) := by
  unfold drawTargets
  simp only [List.mem_flatMap, List.mem_filterMap, mem_offsets]
  constructor
  · rintro ⟨dz, hdz, dx, hdx, hf⟩
    split_ifs at hf with hdisc hbnd
    · exact ⟨dz, dx, hdisc, hbnd.1, hbnd.2.1, hbnd.2.2.1, hbnd.2.2.2,
        (Option.some.inj hf).symm⟩
  · rintro ⟨dz, dx, hdisc, h1, h2, h3, h4, rfl⟩
    have hdzb : -(r : ℤ) ≤ dz ∧ dz ≤ (r : ℤ) :=
      sq_le_bounds (by positivity) (by nlinarith)
    have hdxb : -(r : ℤ) ≤ dx ∧ dx ≤ (r : ℤ) :=
      sq_le_bounds (by positivity) (by nlinarith)
    refine ⟨dz, hdzb, dx, hdxb, ?_⟩
    rw [if_pos hdisc, if_pos ⟨h1, h2, h3, h4⟩]

lemma mem_drawTargets_sagittal {d h w r : ℕ} {si z y x : ℤ}
    {t : Option (ℕ × ℕ × ℕ)} :
    t ∈ drawTargets d h w r .sagittal si z y x ↔
      ∃ dz dy : ℤ, dz * dz + dy * dy ≤ (r : ℤ) * (r : ℤ) ∧
        0 ≤ z + dz ∧ z + dz < (d : ℤ) ∧ 0 ≤ y + dy ∧ y + dy < (h : ℤ) ∧
        t = (npIndex si w).map fun xn =>
          ((z + dz).toNat, (y + dy).toNat, xn) := by
  unfold drawTargets
  simp only [List.mem_flatMap, List.mem_filterMap, mem_offsets]
  constructor
  · rintro ⟨dz, hdz, dy, hdy, hf⟩
    split_ifs at hf with hdisc hbnd
    · exact ⟨dz, dy, hdisc, hbnd.1, hbnd.2.1, hbnd.2.2.1, hbnd.2.2.2,
        (Option.some.inj hf).symm⟩
  · rintro ⟨dz, dy, hdisc, h1, h2, h3, h4, rfl⟩
    have hdzb : -(r : ℤ) ≤ dz ∧ dz ≤ (r : ℤ) :=
      sq_le_bounds (by positivity) (by nlinarith)
    have hdyb : -(r : ℤ) ≤ dy ∧ dy ≤ (r : ℤ) :=
      sq_le_bounds (by positivity) (by nlinarith)
    refine ⟨dz, hdzb, dy, hdyb, ?_⟩
    rw [if_pos hdisc, if_pos ⟨h1, h2, h3, h4⟩]

lemma painted_axial {d h w r : ℕ} {si z y x : ℤ} (hz0 : 0 ≤ z)
    (hzd : z < (d : ℤ)) (a b c : ℕ) :
    (a, b, c) ∈ (drawTargets d h w r .axial si z y x).reduceOption ↔
      (a = z.toNat ∧ b < h ∧ c < w ∧
        ((b : ℤ) - y) * ((b : ℤ) - y) + ((c : ℤ) - x) * ((c : ℤ) - x)
          ≤ (r : ℤ) * (r : ℤ)) := by
  rw [List.reduceOption_mem_iff, mem_drawTargets_axial]
  constructor
  · rintro ⟨dy, dx, hdisc, h1, h2, h3, h4, heq⟩
    rw [npIndex_inRange hz0 hzd, Option.map_some'] at heq
    have h5 := Option.some.inj heq
    have ha : a = z.toNat := congrArg Prod.fst h5
    have hbv : b = (y + dy).toNat := congrArg (fun p => p.2.1) h5
    have hcv : c = (x + dx).toNat := congrArg (fun p => p.2.2) h5
    refine ⟨ha, by omega, by omega, ?_⟩
    rw [show ((b : ℤ) - y) = dy by omega, show ((c : ℤ) - x) = dx by omega]
    exact hdisc
  · rintro ⟨rfl, hb, hc, hdisc⟩
    refine ⟨(b : ℤ) - y, (c : ℤ) - x, hdisc, by omega, by omega, by omega,
      by omega, ?_⟩
    rw [npIndex_inRange hz0 hzd, Option.map_some']
    rw [show (y + ((b : ℤ) - y)).toNat = b by omega,
      show (x + ((c : ℤ) - x)).toNat = c by omega]

lemma painted_coronal {d h w r : ℕ} {si z y x : ℤ} (hs0 : 0 ≤ si)
    (hsh : si < (h : ℤ)) (a b c : ℕ) :
    (a, b, c) ∈ (drawTargets d h w r .coronal si z y x).reduceOption ↔
      (b = si.toNat ∧ a < d ∧ c < w ∧
        ((a : ℤ) - z) * ((a : ℤ) - z) + ((c : ℤ) - x) * ((c : ℤ) - x)
          ≤ (r : ℤ) * (r : ℤ)) := by
  rw [List.reduceOption_mem_iff, mem_drawTargets_coronal]
  constructor
  · rintro ⟨dz, dx, hdisc, h1, h2, h3, h4, heq⟩
    rw [npIndex_inRange hs0 hsh, Option.map_some'] at heq
    have h5 := Option.some.inj heq
    have ha : a = (z + dz).toNat := congrArg Prod.fst h5
    have hbv : b = si.toNat := congrArg (fun p => p.2.1) h5
    have hcv : c = (x + dx).toNat := congrArg (fun p => p.2.2) h5
    refine ⟨hbv, by omega, by omega, ?_⟩
    rw [show ((a : ℤ) - z) = dz by omega, show ((c : ℤ) - x) = dx by omega]
    exact hdisc
  · rintro ⟨rfl, ha, hc, hdisc⟩
    refine ⟨(a : ℤ) - z, (c : ℤ) - x, hdisc, by omega, by omega, by omega,
      by omega, ?_⟩
    rw [npIndex_inRange hs0 hsh, Option.map_some']
    rw [show (z + ((a : ℤ) - z)).toNat = a by omega,
      show (x + ((c : ℤ) - x)).toNat = c by omega]

lemma painted_sagittal {d h w r : ℕ} {si z y x : ℤ} (hs0 : 0 ≤ si)
    (hsw : si < (w : ℤ)) (a b c : ℕ) :
    (a, b, c) ∈ (drawTargets d h w r .sagittal si z y x).reduceOption ↔
      (c = si.toNat ∧ a < d ∧ b < h ∧
        ((a : ℤ) - z) * ((a : ℤ) - z) + ((b : ℤ) - y) * ((b : ℤ) - y)
          ≤ (r : ℤ) * (r : ℤ)) := by
  rw [List.reduceOption_mem_iff, mem_drawTargets_sagittal]
  constructor
  · rintro ⟨dz, dy, hdisc, h1, h2, h3, h4, heq⟩
    rw [npIndex_inRange hs0 hsw, Option.map_some'] at heq
    have h5 := Option.some.inj heq
    have ha : a = (z + dz).toNat := congrArg Prod.fst h5
    have hbv : b = (y + dy).toNat := congrArg (fun p => p.2.1) h5
    have hcv : c = si.toNat := congrArg (fun p => p.2.2) h5
    refine ⟨hcv, by omega, by omega, ?_⟩
    rw [show ((a : ℤ) - z) = dz by omega, show ((b : ℤ) - y) = dy by omega]
    exact hdisc
  · rintro ⟨rfl, ha, hb, hdisc⟩
    refine ⟨(a : ℤ) - z, (b : ℤ) - y, hdisc, by omega, by omega, by omega,
      by omega, ?_⟩
    rw [npIndex_inRange hs0 hsw, Option.map_some']
    rw [show (z + ((a : ℤ) - z)).toNat = a by omega,
      show (y + ((b : ℤ) - y)).toNat = b by omega]

lemma drawTargets_isSome_axial {d h w r : ℕ} {si z y x : ℤ} (hz0 : 0 ≤ z)
    (hzd : z < (d : ℤ)) :
    ∀ t ∈ drawTargets d h w r .axial si z y x, t.isSome = true := by
  intro t ht
  rw [mem_drawTargets_axial] at ht
  obtain ⟨dy, dx, -, -, -, -, -, rfl⟩ := ht
  rw [npIndex_inRange hz0 hzd]
  rfl

lemma drawTargets_isSome_coronal {d h w r : ℕ} {si z y x : ℤ} (hs0 : 0 ≤ si)
    (hsh : si < (h : ℤ)) :
    ∀ t ∈ drawTargets d h w r .coronal si z y x, t.isSome = true := by
  intro t ht
  rw [mem_drawTargets_coronal] at ht
  obtain ⟨dz, dx, -, -, -, -, -, rfl⟩ := ht
  rw [npIndex_inRange hs0 hsh]
  rfl

lemma drawTargets_isSome_sagittal {d h w r : ℕ} {si z y x : ℤ} (hs0 : 0 ≤ si)
    (hsw : si < (w : ℤ)) :
    ∀ t ∈ drawTargets d h w r .sagittal si z y x, t.isSome = true := by
  intro t ht
  rw [mem_drawTargets_sagittal] at ht
  obtain ⟨dz, dy, -, -, -, -, -, rfl⟩ := ht
  rw [npIndex_inRange hs0 hsw]
  rfl

/-! ### Claim C3: disc painting -/

/-- Claim C3: for every mask of the loaded volume's shape, every
orientation, in-range `slice_index`, center voxel (as `screen_to_voxel`
computes it) and radius, `draw_on_mask` completes without error and sets to
label 1 exactly the in-bounds voxels whose in-plane offset from the center
satisfies `dy^2 + dx^2 <= r^2` in the plane orthogonal to the orientation's
fixed axis, the fixed axis pinned to `slice_index`; out-of-bounds offsets
are silently skipped (no wraparound), and every voxel outside that disc
keeps its previous value. -/
theorem c3_disc_painting (vd vh vw : ℕ) (mask : Arr3) (r : ℕ) (ori : Orient)
    (si : ℤ) (lx ly : ℚ) (dw dh : ℤ) (ish : ℤ × ℤ) (z y x : ℤ)
    (hmd : mask.d = vd) (hmh : mask.h = vh) (hmw : mask.w = vw)
    (hsi0 : 0 ≤ si)
    (hsiU : si < ((match ori with
      | .axial => vd | .coronal => vh | .sagittal => vw) : ℤ))
    (hvox : screen_to_voxel vd vh vw ori si lx ly dw dh ish = some (z, y, x)) :
    (draw_on_mask vd vh vw mask r ori si lx ly dw dh ish).isSome = true ∧
      ∀ a b c : ℕ,
        ((draw_on_mask vd vh vw mask r ori si lx ly dw dh ish).getD mask).data
            a b c =
          if specDiscCond ori si z y x r mask.d mask.h mask.w a b c then 1
          else mask.data a b c := by
  have hred : draw_on_mask vd vh vw mask r ori si lx ly dw dh ish =
      runWrites mask (drawTargets mask.d mask.h mask.w r ori si z y x) := by
    unfold draw_on_mask
    rw [hvox]
  cases ori with
  | axial =>
      have hsiU' : si < (vd : ℤ) := hsiU
      have hzsi : z = si := by
        have hvox' := hvox
        simp only [screen_to_voxel] at hvox'
        split_ifs at hvox' with hg
        have h5 := Option.some.inj hvox'
        have h6 := congrArg Prod.fst h5
        unfold clip at h6
        omega
      rw [hzsi] at hred ⊢
      have hall := @drawTargets_isSome_axial mask.d mask.h mask.w r si si y x
        hsi0 (by omega)
      rw [hred, runWrites_eq_of_all hall]
      refine ⟨rfl, fun a b c => ?_⟩
      rw [Option.getD_some]
      show stampAll mask.data
          ((drawTargets mask.d mask.h mask.w r Orient.axial si si y
            x).reduceOption) a b c = _
      rw [stampAll_apply]
      exact if_congr (painted_axial hsi0 (by omega) a b c) rfl rfl
  | coronal =>
      have hsiU' : si < (vh : ℤ) := hsiU
      have hall := @drawTargets_isSome_coronal mask.d mask.h mask.w r si z y x
        hsi0 (by omega)
      rw [hred, runWrites_eq_of_all hall]
      refine ⟨rfl, fun a b c => ?_⟩
      rw [Option.getD_some]
      show stampAll mask.data
          ((drawTargets mask.d mask.h mask.w r Orient.coronal si z y
            x).reduceOption) a b c = _
      rw [stampAll_apply]
      exact if_congr (painted_coronal hsi0 (by omega) a b c) rfl rfl
  | sagittal =>
      have hsiU' : si < (vw : ℤ) := hsiU
      have hall := @drawTargets_isSome_sagittal mask.d mask.h mask.w r si z y x
        hsi0 (by omega)
      rw [hred, runWrites_eq_of_all hall]
      refine ⟨rfl, fun a b c => ?_⟩
      rw [Option.getD_some]
      show stampAll mask.data
          ((drawTargets mask.d mask.h mask.w r Orient.sagittal si z y
            x).reduceOption) a b c = _
      rw [stampAll_apply]
      exact if_congr (painted_sagittal hsi0 (by omega) a b c) rfl rfl

/-- A concrete 3×3×3 zero mask for the paint witnesses. -/
def mask3ex : Arr3 := ⟨3, 3, 3, fun _ _ _ => 0⟩

/-- Result of one axial brush stamp on `mask3ex` (slice 1, center `(1,1,1)`,
radius 1). -/
def mask3paint1 : Arr3 :=
  ⟨3, 3, 3, stampAll mask3ex.data
    ((drawTargets 3 3 3 1 .axial 1 1 1 1).reduceOption)⟩

/-- Result of repeating the same stamp on `mask3paint1`. -/
def mask3paint2 : Arr3 :=
  ⟨3, 3, 3, stampAll mask3paint1.data
    ((drawTargets 3 3 3 1 .axial 1 1 1 1).reduceOption)⟩

/-- Witness for `c3_disc_painting`: the concrete axial stamp on `mask3ex`,
checked at voxel `(1, 1, 2)` (which lies on the disc boundary). -/
theorem c3_disc_painting_witness :
    (draw_on_mask 3 3 3 mask3ex 1 .axial 1 1 1 3 3 (3, 3)).isSome = true ∧
      ((draw_on_mask 3 3 3 mask3ex 1 .axial 1 1 1 3 3 (3, 3)).getD
          mask3ex).data 1 1 2 =
        (if specDiscCond .axial 1 1 1 1 1 mask3ex.d mask3ex.h mask3ex.w 1 1 2
         then 1 else mask3ex.data 1 1 2) := by
  have hvox : screen_to_voxel 3 3 3 .axial 1 1 1 3 3 (3, 3) = some (1, 1, 1)
      := by
    norm_num [screen_to_voxel, pyInt, clip]
  have h := c3_disc_painting 3 3 3 mask3ex 1 .axial 1 1 1 3 3 (3, 3) 1 1 1
    rfl rfl rfl (by decide) (by decide) hvox
  exact ⟨h.1, h.2 1 1 2⟩

/-! ### Claim C4: bounds at the public entry points -/

/-- A concrete 2×2×2 zero mask for the out-of-bounds evaluation. -/
def mask2ex : Arr3 := ⟨2, 2, 2, fun _ _ _ => 0⟩

/-- Supporting fact (not a claim): `set_cursor` clamps every component of
the cursor into the loaded volume's bounds. -/
lemma set_cursor_in_bounds (st : AppState) (vol : Arr3)
    (hvol : st.raw_image = some vol) (hd : 0 < vol.d) (hh : 0 < vol.h)
    (hw : 0 < vol.w) (z y x : ℤ) :
    0 ≤ (set_cursor st z y x).current_cursor.1 ∧
      (set_cursor st z y x).current_cursor.1 < (vol.d : ℤ) ∧
      0 ≤ (set_cursor st z y x).current_cursor.2.1 ∧
      (set_cursor st z y x).current_cursor.2.1 < (vol.h : ℤ) ∧
      0 ≤ (set_cursor st z y x).current_cursor.2.2 ∧
      (set_cursor st z y x).current_cursor.2.2 < (vol.w : ℤ) := by
  unfold set_cursor
  rw [hvol]
  unfold clip
  refine ⟨?_, ?_, ?_, ?_, ?_, ?_⟩ <;> simp only [] <;> omega

/-- Claim C4, evaluated at the failing input: `draw_on_mask` on a `(2,2,2)`
volume, coronal orientation, `slice_index = 5`, writes `mask[nz, 5, nx]`
with the raw out-of-range `slice_index` (although `screen_to_voxel` had
computed the clamped value), so the call raises `IndexError` instead of
clamping: the claim that every written index lies within bounds fails. -/
theorem c4_draw_oob_raises :
    draw_on_mask 2 2 2 mask2ex 1 .coronal 5 0 0 2 2 (2, 2) = none := by
  have hvox : screen_to_voxel 2 2 2 .coronal 5 0 0 2 2 (2, 2) =
      some (1, 1, 0) := by
    norm_num [screen_to_voxel, pyInt, clip]
  unfold draw_on_mask
  rw [hvox]
  show runWrites mask2ex (drawTargets 2 2 2 1 Orient.coronal 5 1 1 0) = none
  unfold runWrites
  rw [if_neg (by decide)]

/-! ### Claim C7: mask shape invariant -/

/-- Claim C7: immediately after a successful load the annotation mask is the
all-zero array of exactly the volume's shape, and a paint operation never
changes the mask's shape — the mask is never resized independently of the
volume. -/
theorem c7_mask_shape_invariant (st : AppState) (img : LoadedImage)
    (vd vh vw : ℕ) (mask : Arr3) (r : ℕ) (ori : Orient) (si : ℤ)
    (lx ly : ℚ) (dw dh : ℤ) (ish : ℤ × ℤ) (mask1 : Arr3)
    (hdraw : draw_on_mask vd vh vw mask r ori si lx ly dw dh ish = some mask1) :
    ((load_dicom_directory st (.ok img)).2.1.mask_image =
        some ⟨img.array.d, img.array.h, img.array.w, fun _ _ _ => 0⟩ ∧
      (load_dicom_directory st (.ok img)).2.1.raw_image = some img.array) ∧
    (mask1.d = mask.d ∧ mask1.h = mask.h ∧ mask1.w = mask.w) := by
  refine ⟨⟨rfl, rfl⟩, ?_⟩
  cases hvox : screen_to_voxel vd vh vw ori si lx ly dw dh ish with
  | none =>
      have hred : draw_on_mask vd vh vw mask r ori si lx ly dw dh ish =
          some mask := by
        unfold draw_on_mask
        rw [hvox]
      rw [hred] at hdraw
      obtain rfl := Option.some.inj hdraw
      exact ⟨rfl, rfl, rfl⟩
  | some p =>
      obtain ⟨z, y, x⟩ := p
      have hred : draw_on_mask vd vh vw mask r ori si lx ly dw dh ish =
          runWrites mask (drawTargets mask.d mask.h mask.w r ori si z y x) := by
        unfold draw_on_mask
        rw [hvox]
      rw [hred] at hdraw
      unfold runWrites at hdraw
      split_ifs at hdraw with hall
      obtain rfl := Option.some.inj hdraw
      exact ⟨rfl, rfl, rfl⟩

/-- Witness for `c7_mask_shape_invariant`: the concrete axial stamp
preserves the `(3, 3, 3)` shape. -/
theorem c7_mask_shape_invariant_witness :
    mask3paint1.d = mask3ex.d ∧ mask3paint1.h = mask3ex.h ∧
      mask3paint1.w = mask3ex.w := by
  have hvox : screen_to_voxel 3 3 3 .axial 1 1 1 3 3 (3, 3) = some (1, 1, 1)
      := by
    norm_num [screen_to_voxel, pyInt, clip]
  have h1 : draw_on_mask 3 3 3 mask3ex 1 .axial 1 1 1 3 3 (3, 3) =
      some mask3paint1 := by
    unfold draw_on_mask
    rw [hvox]
    show runWrites mask3ex (drawTargets 3 3 3 1 Orient.axial 1 1 1 1) =
      some mask3paint1
    unfold runWrites
    rw [if_pos (by decide)]
    rfl
  exact (c7_mask_shape_invariant {} imgSmall 3 3 3 mask3ex 1 .axial 1 1 1 3 3
    (3, 3) mask3paint1 h1).2

/-! ### Claim C10: painting is monotone and idempotent -/

/-- Claim C10: a `draw_on_mask` call only ever writes label 1 — every mask
entry either keeps its previous value or becomes 1, never reverting to 0
(there is no erase path) — and repeating the same call with identical
arguments on the resulting mask changes nothing. -/
theorem c10_paint_monotone_idempotent (vd vh vw : ℕ) (mask m1 m2 : Arr3)
    (r : ℕ) (ori : Orient) (si : ℤ) (lx ly : ℚ) (dw dh : ℤ) (ish : ℤ × ℤ)
    (h1 : draw_on_mask vd vh vw mask r ori si lx ly dw dh ish = some m1)
    (h2 : draw_on_mask vd vh vw m1 r ori si lx ly dw dh ish = some m2) :
    (∀ a b c : ℕ, m1.data a b c = mask.data a b c ∨ m1.data a b c = 1) ∧
      (m2.d = m1.d ∧ m2.h = m1.h ∧ m2.w = m1.w ∧
        ∀ a b c : ℕ, m2.data a b c = m1.data a b c) := by
  cases hvox : screen_to_voxel vd vh vw ori si lx ly dw dh ish with
  | none =>
      have e1 : draw_on_mask vd vh vw mask r ori si lx ly dw dh ish =
          some mask := by
        unfold draw_on_mask
        rw [hvox]
      have e2 : draw_on_mask vd vh vw m1 r ori si lx ly dw dh ish =
          some m1 := by
        unfold draw_on_mask
        rw [hvox]
      rw [e1] at h1
      rw [e2] at h2
      obtain rfl := Option.some.inj h1
      obtain rfl := Option.some.inj h2
      exact ⟨fun a b c => Or.inl rfl, rfl, rfl, rfl, fun a b c => rfl⟩
  | some p =>
      obtain ⟨z, y, x⟩ := p
      have e1 : draw_on_mask vd vh vw mask r ori si lx ly dw dh ish =
          runWrites mask (drawTargets mask.d mask.h mask.w r ori si z y x)
          := by
        unfold draw_on_mask
        rw [hvox]
      rw [e1] at h1
      unfold runWrites at h1
      split_ifs at h1 with hall
      have hm1 : m1 = ⟨mask.d, mask.h, mask.w, stampAll mask.data
          ((drawTargets mask.d mask.h mask.w r ori si z y x).reduceOption)⟩ :=
        (Option.some.inj h1).symm
      have hd1 : m1.d = mask.d := by rw [hm1]
      have hh1 : m1.h = mask.h := by rw [hm1]
      have hw1 : m1.w = mask.w := by rw [hm1]
      have e2 : draw_on_mask vd vh vw m1 r ori si lx ly dw dh ish =
          runWrites m1 (drawTargets m1.d m1.h m1.w r ori si z y x) := by
        unfold draw_on_mask
        rw [hvox]
      rw [hd1, hh1, hw1] at e2
      rw [e2] at h2
      unfold runWrites at h2
      rw [if_pos hall] at h2
      have hm2 : m2 = ⟨m1.d, m1.h, m1.w, stampAll m1.data
          ((drawTargets mask.d mask.h mask.w r ori si z y x).reduceOption)⟩ :=
        (Option.some.inj h2).symm
      set L := (drawTargets mask.d mask.h mask.w r ori si z y x).reduceOption
        with hL
      constructor
      · intro a b c
        rw [hm1]
        show stampAll mask.data L a b c = mask.data a b c ∨
          stampAll mask.data L a b c = 1
        rw [stampAll_apply]
        by_cases hmem : (a, b, c) ∈ L
        · rw [if_pos hmem]
          exact Or.inr rfl
        · rw [if_neg hmem]
          exact Or.inl rfl
      · refine ⟨by rw [hm2], by rw [hm2], by rw [hm2], fun a b c => ?_⟩
        rw [hm2]
        show stampAll m1.data L a b c = m1.data a b c
        rw [stampAll_apply]
        by_cases hmem : (a, b, c) ∈ L
        · rw [if_pos hmem, hm1]
          show (1 : ℤ) = stampAll mask.data L a b c
          rw [stampAll_apply, if_pos hmem]
        · rw [if_neg hmem]

/-- Witness for `c10_paint_monotone_idempotent`: the concrete axial stamp
applied twice, checked at voxel `(1, 1, 2)`. -/
theorem c10_paint_monotone_idempotent_witness :
    (mask3paint1.data 1 1 2 = mask3ex.data 1 1 2 ∨
      mask3paint1.data 1 1 2 = 1) ∧
      mask3paint2.data 1 1 2 = mask3paint1.data 1 1 2 := by
  have hvox : screen_to_voxel 3 3 3 .axial 1 1 1 3 3 (3, 3) = some (1, 1, 1)
      := by
    norm_num [screen_to_voxel, pyInt, clip]
  have h1 : draw_on_mask 3 3 3 mask3ex 1 .axial 1 1 1 3 3 (3, 3) =
      some mask3paint1 := by
    unfold draw_on_mask
    rw [hvox]
    show runWrites mask3ex (drawTargets 3 3 3 1 Orient.axial 1 1 1 1) =
      some mask3paint1
    unfold runWrites
    rw [if_pos (by decide)]
    rfl
  have h2 : draw_on_mask 3 3 3 mask3paint1 1 .axial 1 1 1 3 3 (3, 3) =
      some mask3paint2 := by
    unfold draw_on_mask
    rw [hvox]
    show runWrites mask3paint1
        (drawTargets mask3paint1.d mask3paint1.h mask3paint1.w 1
          Orient.axial 1 1 1 1) = some mask3paint2
    unfold runWrites
    rw [if_pos (by decide)]
    rfl
  have h := c10_paint_monotone_idempotent 3 3 3 mask3ex mask3paint1
    mask3paint2 1 .axial 1 1 1 3 3 (3, 3) h1 h2
  exact ⟨h.1 1 1 2, h.2.2.2.2 1 1 2⟩

end DicomViewer
